import Mathlib

/-!
Verification of the BD contact-lockout application.

Shallow embedding of `src/streamlit_app.py`: the text/phone normalizers, the
salted-hash helpers, the duplicate finder (`find_duplicates`), the
confirmation gate around the submit handler, the today-view duplicate flag,
and the admin archive/clear operations, together with theorems settling the
frozen claims about them.

Rows of the spreadsheet are modelled as `List String` (a row of cell texts),
the parsed record table as a list of `Rec` (one per data row, carrying the
positional index that gives records their identity).  The external SHA-256
digest primitive is a function parameter `digest`; the external rapidfuzz
token-set similarity is modelled executably below (`tokenSetScore`).
-/

/-- Python whitespace for `str.strip` / `str.split` (ASCII subset). -/
def pySpace (c : Char) : Bool :=
  c = ' ' || c = '\t' || c = '\n' || c = '\r' || c = Char.ofNat 11 || c = Char.ofNat 12

/-- Python `str.strip()` on a character list: drop whitespace at both ends. -/
def pyStripChars (l : List Char) : List Char :=
  ((l.dropWhile pySpace).reverse.dropWhile pySpace).reverse

/-- Python `str.strip()`. -/
def pyStrip (s : String) : String :=
  String.mk (pyStripChars s.data)

/-- Python `str.lower()` (ASCII behaviour of `Char.toLower`). -/
def pyLower (s : String) : String :=
  String.mk (s.data.map Char.toLower)

/-- Python `str.split()` : split on whitespace runs, no empty fields.
`acc` holds the characters of the current (reversed) field. -/
def pySplitAux : List Char → List Char → List (List Char)
  | [], acc => if acc = [] then [] else [acc.reverse]
  | c :: cs, acc =>
    if pySpace c then
      if acc = [] then pySplitAux cs [] else acc.reverse :: pySplitAux cs []
    else pySplitAux cs (c :: acc)

/-- Python `str.split()` producing strings. -/
def pySplit (s : String) : List String :=
  (pySplitAux s.data []).map String.mk

/-- Join a list of strings with single spaces (Python `" ".join`). -/
def joinSpace : List String → String
  | [] => ""
  | [t] => t
  | t :: ts => t ++ " " ++ joinSpace ts

/-- Source `normalize_text`: empty input gives `""`, otherwise
`" ".join(str(x).strip().lower().split())`. -/
def normalize_text (x : String) : String :=
  if x = "" then "" else joinSpace (pySplit (pyLower (pyStrip x)))

/-- Source `normalize_phone`: keep only digit characters. -/
def normalize_phone (p : String) : String :=
  String.mk (p.data.filter Char.isDigit)

/-- Source `sha256_hex`, with the external `hashlib.sha256(...)
.hexdigest()` primitive passed in as `digest`: the empty string maps to the
empty digest, any other value to `digest value`. -/
def sha256_hex (digest : String → String) (value : String) : String :=
  if value = "" then "" else digest value

example : normalize_text " Acme  Co " = "acme co" := by decide
example : normalize_text "acme co" = "acme co" := by decide
example : normalize_phone "+44 (20) 1234-5678" = "442012345678" := by decide
example : pyStrip "  a b " = "a b" := by decide
example : normalize_text "   " = "" := by decide

/-- Lexicographic comparison of character lists by code point (Python `<`
on strings). -/
def lexLt : List Char → List Char → Bool
  | _, [] => false
  | [], _ :: _ => true
  | a :: as, b :: bs => a.val < b.val || (a = b && lexLt as bs)

/-- Python `a < b` on strings. -/
def strLt (a b : String) : Bool := lexLt a.data b.data

/-- Insert into an ascending list (for Python `sorted`). -/
def insertAsc (t : String) : List String → List String
  | [] => [t]
  | u :: us => if strLt u t then u :: insertAsc t us else t :: u :: us

/-- Python `sorted` on a list of strings (insertion sort, ascending). -/
def sortStrs (l : List String) : List String := l.foldr insertAsc []

/-- Keep the first occurrence of each element (order-preserving
de-duplication; models both `set(...)` token collection, whose order is
irrelevant after sorting, and pandas `unique()`). -/
def uniqFirstAux : List String → List String → List String
  | [], _ => []
  | x :: xs, seen =>
    if seen.contains x then uniqFirstAux xs seen
    else x :: uniqFirstAux xs (x :: seen)

/-- First-occurrence de-duplication. -/
def uniqFirst (l : List String) : List String := uniqFirstAux l []

/-- Longest common subsequence length, with explicit fuel so the
recursion is structural (the fuel `|a| + |b|` always suffices). -/
def lcsFuel : Nat → List Char → List Char → Nat
  | 0, _, _ => 0
  | _ + 1, [], _ => 0
  | _ + 1, _ :: _, [] => 0
  | f + 1, a :: as, b :: bs =>
    if a = b then lcsFuel f as bs + 1
    else max (lcsFuel f (a :: as) bs) (lcsFuel f as (b :: bs))

/-- Longest common subsequence length of two character lists. -/
def lcs (a b : List Char) : Nat := lcsFuel (a.length + b.length) a b

/-- Indel (insertion/deletion) edit distance, as used by rapidfuzz's
ratio: `|a| + |b| - 2 * lcs a b`. -/
def indelDist (a b : List Char) : Nat := a.length + b.length - 2 * lcs a b

/-- Sorted unique word tokens of a string (Python `sorted(set(s.split()))`,
up to the irrelevant iteration order of the set). -/
def tokenList (s : String) : List String := sortStrs (uniqFirst (pySplit s))

/-- Token-set decomposition: sorted intersection, sorted `a - b` and
sorted `b - a` of the two token sets. -/
def tokenParts (s1 s2 : String) : List String × List String × List String :=
  let ta := tokenList s1
  let tb := tokenList s2
  (ta.filter (fun t => tb.contains t),
   ta.filter (fun t => !tb.contains t),
   tb.filter (fun t => !ta.contains t))

/-- Modelled from the spec: the external rapidfuzz capability
`fuzz.token_set_ratio` (not part of src/), the token-set similarity score
the Matcher uses for the fuzzy company signal.  Both strings are split
into unique sorted word tokens; if either token set is empty the score is
0; if one token set contains the other it is 100; otherwise it is the
best of the indel ratio between the joined token-set differences and the
two intersection-versus-whole ratios, scaled to 0–100.  Order-insensitive
on word tokens by construction. -/
def tokenSetScore (s1 s2 : String) : ℚ :=
  if tokenList s1 = [] ∨ tokenList s2 = [] then 0
  else
    let sect := (tokenParts s1 s2).1
    let dab := (tokenParts s1 s2).2.1
    let dba := (tokenParts s1 s2).2.2
    if sect ≠ [] ∧ (dab = [] ∨ dba = []) then 100
    else
      let abJ := joinSpace dab
      let baJ := joinSpace dba
      let sectLen := (joinSpace sect).length
      let sectAbLen := sectLen + (if sectLen > 0 then 1 else 0) + abJ.length
      let sectBaLen := sectLen + (if sectLen > 0 then 1 else 0) + baJ.length
      let dist := indelDist abJ.data baJ.data
      let r0 : ℚ := 100 - 100 * (dist : ℚ) / ((sectAbLen : ℚ) + (sectBaLen : ℚ))
      if sectLen > 0 then
        let rab : ℚ := 100 - 100 * ((sectAbLen : ℚ) - (sectLen : ℚ)) / ((sectLen : ℚ) + (sectAbLen : ℚ))
        let rba : ℚ := 100 - 100 * ((sectBaLen : ℚ) - (sectLen : ℚ)) / ((sectLen : ℚ) + (sectBaLen : ℚ))
        max r0 (max rab rba)
      else r0

/-- Source constant `FUZZY_THRESHOLD = 82` (the comment beside it says "fixed"). -/
def FUZZY_THRESHOLD : ℚ := 82

example : tokenSetScore "acme search partners" "partners acme search" = 100 := by decide
example : tokenSetScore "" "acme" = 0 := by decide
example : tokenSetScore "acme" "" = 0 := by decide

/-- Concrete fuzzy score used below: `"acme co"` vs `"acme inc"` scores
exactly 80 (between the spec's lower tunable bound 70 and the code's
fixed threshold 82). -/
theorem tokenSetScore_acme : tokenSetScore "acme co" "acme inc" = 80 := by
  have hparts : tokenParts "acme co" "acme inc" = (["acme"], ["co"], ["inc"]) := by decide
  have h1 : tokenList "acme co" = ["acme", "co"] := by decide
  have h2 : tokenList "acme inc" = ["acme", "inc"] := by decide
  have hd : indelDist (joinSpace ["co"]).data (joinSpace ["inc"]).data = 3 := by decide
  have hsl : (joinSpace ["acme"]).length = 4 := by decide
  have habl : (joinSpace ["co"]).length = 2 := by decide
  have hbal : (joinSpace ["inc"]).length = 3 := by decide
  rw [tokenSetScore, h1, h2]
  simp only [hparts, hd, hsl, habl, hbal]
  norm_num
  exact ⟨by decide, by decide⟩

/-- One data row of the `Locks` sheet as the app reads it back
(`get_all_records` + the derived columns).  `idx` is the row position and
gives a record its identity (pandas row index); `ts` is the parsed
`Timestamp` (order-isomorphic model of `pd.to_datetime`); the remaining
fields are the stored cell texts.  The derived frame columns are
functions of these: `_company_n = normalize_text Company`,
`_email_h = EmailHash`, `_phone_h = PhoneHash`. -/
structure Rec where
  idx : Nat
  ts : Nat
  date : String
  company : String
  contactName : String
  brand : String
  lockedBy : String
  notes : String
  emailHash : String
  phoneHash : String
deriving DecidableEq

/-- The derived `_company_n` column. -/
def compN (r : Rec) : String := normalize_text r.company

/-- The stored column values of a record — everything except the
positional identity `idx`, modelled as the record with that identity
erased.  pandas `drop_duplicates()` compares rows on exactly these
columns (the derived columns add nothing, being functions of them). -/
def recVals (r : Rec) : Rec :=
  { r with idx := 0 }

/-- The fuzzy-signal loop of `find_duplicates`: every distinct existing
normalized company key that is non-empty and scores at least
`FUZZY_THRESHOLD` against the candidate's key. -/
def fuzzyMatchedVals (df : List Rec) (company_n : String) : List String :=
  (uniqFirst (df.map compN)).filter
    (fun comp => !(comp == "") && decide (FUZZY_THRESHOLD ≤ tokenSetScore company_n comp))

/-- Insert into a timestamp-descending list (model of
`sort_values("Timestamp", ascending=False)`). -/
def insertTsDesc (r : Rec) : List Rec → List Rec
  | [] => [r]
  | x :: xs => if x.ts < r.ts then r :: x :: xs else x :: insertTsDesc r xs

/-- Sort records by timestamp, most recent first. -/
def sortTsDesc (l : List Rec) : List Rec := l.foldr insertTsDesc []

/-- pandas `drop_duplicates()` (keep="first"): keep a record only if its
column-value tuple has not been seen earlier. -/
def dedupByVals : List Rec → List Rec → List Rec
  | [], _ => []
  | r :: rs, seen =>
    if recVals r ∈ seen then dedupByVals rs seen
    else r :: dedupByVals rs (recVals r :: seen)

/-- Hit-group collection of source
`find_duplicates(df, company_n, email_hash, phone_hash)`: the labeled
hit groups — exact email hash, exact phone hash, fuzzy company (the last
only when the rapidfuzz capability `hasFuzz` is available), each present
only when its candidate key is non-empty and its group non-empty. -/
def hitsOf (hasFuzz : Bool) (df : List Rec) (company_n email_hash phone_hash : String) :
    List (String × List Rec) :=
  let h1 : List (String × List Rec) :=
      if email_hash ≠ "" then
        let ee := df.filter (fun r => r.emailHash == email_hash)
        if ee ≠ [] then [("Exact email (hashed)", ee)] else []
      else []
    let h2 : List (String × List Rec) :=
      if phone_hash ≠ "" then
        let ep := df.filter (fun r => r.phoneHash == phone_hash)
        if ep ≠ [] then [("Exact phone (hashed)", ep)] else []
      else []
    let h3 : List (String × List Rec) :=
      if company_n ≠ "" ∧ hasFuzz then
        let mv := fuzzyMatchedVals df company_n
        if mv ≠ [] then
          let fz := df.filter (fun r => decide (compN r ∈ mv))
          if fz ≠ [] then [("Fuzzy company ≥82", fz)] else []
        else []
      else []
    h1 ++ h2 ++ h3

/-- Source `find_duplicates`: the labeled hit groups and the combined
view (concatenation of the groups, `drop_duplicates()`, sorted by
timestamp descending; empty when there are no hits or when the table is
empty). -/
def find_duplicates (hasFuzz : Bool) (df : List Rec) (company_n email_hash phone_hash : String) :
    List (String × List Rec) × List Rec :=
  if df = [] then ([], [])
  else
    let hits := hitsOf hasFuzz df company_n email_hash phone_hash
    if hits = [] then (hits, [])
    else (hits, sortTsDesc (dedupByVals ((hits.map Prod.snd).flatten) []))

/-- Does an earlier record share the email-hash, phone-hash or normalized
company key (string equality, empty values included)? -/
def sharesKeyB (q r : Rec) : Bool :=
  q.emailHash == r.emailHash || q.phoneHash == r.phoneHash || compN q == compN r

/-- The today-view `Dup Today?` column (source lines 540–544): the OR of
`duplicated(subset=[c], keep="first")` over the three key columns, for
the records of the (already filtered) today frame in frame order.
`prior` accumulates the records already passed.  The three per-column
"an earlier row has an equal value" tests OR-ed together are exactly
"an earlier row shares at least one of the three keys". -/
def dupFlags (prior : List Rec) : List Rec → List Bool
  | [] => []
  | r :: rs => (prior.any (fun q => sharesKeyB q r)) :: dupFlags (prior ++ [r]) rs

/-- Per-session confirmation state: `st.session_state["confirm_sig"]`
(`None` initially) and `st.session_state["confirm_ready"]`. -/
structure GateState where
  confirmSig : Option String
  confirmReady : Bool
deriving DecidableEq

/-- Outcome of one press of "Lock Contact": the three validation
rejections, a duplicate block (carrying the hit set shown to the user),
or a successful append of a row. -/
inductive SubmitOutcome where
  | profileError
  | missingRequired
  | missingContactInfo
  | blocked (hits : List (String × List Rec)) (combined : List Rec)
  | appended (row : List String)
deriving DecidableEq

/-- Source line 464:
`email_hash = sha256_hex(salt + normalize_text(email)) if email else ""`. -/
def emailHashOf (digest : String → String) (salt email : String) : String :=
  if email = "" then "" else sha256_hex digest (salt ++ normalize_text email)

/-- Source line 465:
`phone_hash = sha256_hex(salt + normalize_phone(phone)) if phone else ""`. -/
def phoneHashOf (digest : String → String) (salt phone : String) : String :=
  if phone = "" then "" else sha256_hex digest (salt ++ normalize_phone phone)

/-- The confirmation signature
`f"{email_hash}|{phone_hash}|{normalize_text(company)}"` (source line 468). -/
def sigOf (digest : String → String) (salt company email phone : String) : String :=
  emailHashOf digest salt email ++ "|" ++ phoneHashOf digest salt phone ++ "|" ++
    normalize_text company

/-- The row appended on an accepted submission (source lines 486–490):
server timestamp and date, stripped company / contact / locked-by /
notes, brand, and the two salted hashes — no raw email or phone. -/
def new_row (tsIso dateStr company contactName brand lockedBy notes eh ph : String) :
    List String :=
  [tsIso, dateStr, pyStrip company, pyStrip contactName, brand,
   pyStrip lockedBy, pyStrip notes, eh, ph]

/-- The submit handler (source lines 445–498), success path of the sheet
append: validation first (profile, required fields, at least one of
email/phone, each tested by Python truthiness of the raw string), then
hashing, duplicate finding and the confirmation gate.  A blocked
submission arms the gate with the submission's signature; an accepted one
appends `new_row` and clears the gate. -/
def submit (digest : String → String) (hasFuzz : Bool) (df : List Rec)
    (tsIso dateStr salt lockedBy brand company contactName email phone notes : String)
    (st : GateState) : SubmitOutcome × GateState :=
  if lockedBy = "" ∨ brand = "" then (.profileError, st)
  else if company = "" ∨ contactName = "" then (.missingRequired, st)
  else if email = "" ∧ phone = "" then (.missingContactInfo, st)
  else
    let eh := emailHashOf digest salt email
    let ph := phoneHashOf digest salt phone
    let hits := (find_duplicates hasFuzz df (normalize_text company) eh ph).1
    let combined := (find_duplicates hasFuzz df (normalize_text company) eh ph).2
    let sig := sigOf digest salt company email phone
    if hits ≠ [] ∧ (st.confirmSig ≠ some sig ∨ st.confirmReady = false) then
      (.blocked hits combined, ⟨some sig, true⟩)
    else
      (.appended (new_row tsIso dateStr company contactName brand lockedBy notes eh ph),
       ⟨none, false⟩)

/-- The rows a submit outcome writes to the ledger: one for an accepted
submission, none otherwise. -/
def appendedRows : SubmitOutcome → List (List String)
  | .appended r => [r]
  | _ => []

/-- The live (`Locks`) worksheet values — first row is the header — and
the `Archive` worksheet (`none` while it does not exist yet). -/
structure Sheets where
  live : List (List String)
  archive : Option (List (List String))
deriving DecidableEq

/-- The header `get_or_create_archive` writes on lazy creation (source
line 292): the seven PII-free columns up to Notes. -/
def ARCHIVE_HEADER : List String :=
  ["Timestamp", "Date", "Company", "Contact Name", "Brand", "Locked By", "Notes"]

/-- Source `get_or_create_archive` (lines 287–293). -/
def get_or_create_archive : Option (List (List String)) → List (List String)
  | some rows => rows
  | none => [ARCHIVE_HEADER]

/-- Row-selection test `len(row) >= 2 and row[1] == today_str` of
the admin today-scoped operations. -/
def dateIs (today : String) (row : List String) : Bool :=
  decide (2 ≤ row.length) && (row.getD 1 "" == today)

/-- Ascending 1-based sheet row numbers of the matching rows, starting
the numbering at `i` (the source enumerates `values[1:]` with
`start=2`). -/
def matchIdx (p : List String → Bool) : List (List String) → Nat → List Nat
  | [], _ => []
  | r :: rs, i => if p r then i :: matchIdx p rs (i + 1) else matchIdx p rs (i + 1)

/-- Model of `for r in reversed(to_delete): ws.delete_rows(r)`: delete the
1-based rows in the reverse of the given (ascending) order. -/
def deleteRowsDesc (values : List (List String)) (idxs : List Nat) : List (List String) :=
  List.foldl (fun acc i => acc.eraseIdx (i - 1)) values idxs.reverse

/-- Source `admin_clear_today` (lines 295–306): collect today's row
numbers, then delete them highest-first (no-op when none match). -/
def admin_clear_today (values : List (List String)) (today : String) : List (List String) :=
  let toDelete := matchIdx (dateIs today) values.tail 2
  if toDelete = [] then values else deleteRowsDesc values toDelete

/-- Selection `rows_to_archive` of `admin_archive_today_and_clear` (source
lines 315–319): today's data rows, each truncated to `row[:7]` (up to Notes). -/
def rows_to_archive_today (values : List (List String)) (today : String) : List (List String) :=
  (values.tail.filter (dateIs today)).map (fun r => r.take 7)

/-- Copy phase of `admin_archive_today_and_clear` (source lines 312–324):
append today's truncated rows to the (lazily created) Archive sheet.
No-op when there is nothing to archive. -/
def admin_archive_today_copy (st : Sheets) (today : String) : Sheets :=
  if rows_to_archive_today st.live today = [] then st
  else { live := st.live,
         archive := some (get_or_create_archive st.archive ++ rows_to_archive_today st.live today) }

/-- Delete phase of `admin_archive_today_and_clear` (source lines
325–326): delete the collected row numbers highest-first. -/
def admin_archive_today_delete (st : Sheets) (today : String) : Sheets :=
  if rows_to_archive_today st.live today = [] then st
  else { st with live := deleteRowsDesc st.live (matchIdx (dateIs today) st.live.tail 2) }

/-- Source `admin_archive_today_and_clear`: copy to Archive, then delete from
the live sheet — in that order. -/
def admin_archive_today_and_clear (st : Sheets) (today : String) : Sheets :=
  admin_archive_today_delete (admin_archive_today_copy st today) today

/-- Selection `data_rows` of `admin_archive_all_and_clear` (source line 333): all
data rows truncated to `row[:7]`. -/
def rows_to_archive_all (values : List (List String)) : List (List String) :=
  values.tail.map (fun r => r.take 7)

/-- Copy phase of `admin_archive_all_and_clear` (source lines 329–335). -/
def admin_archive_all_copy (st : Sheets) : Sheets :=
  if st.live.length ≤ 1 then st
  else { live := st.live,
         archive := some (get_or_create_archive st.archive ++ rows_to_archive_all st.live) }

/-- Delete phase of `admin_archive_all_and_clear` (source line 336):
`ws.delete_rows(2, ws.row_count)` keeps only the header row. -/
def admin_archive_all_delete (st : Sheets) : Sheets :=
  if st.live.length ≤ 1 then st else { st with live := st.live.take 1 }

/-- Source `admin_archive_all_and_clear`: copy to Archive, then clear — in that
order. -/
def admin_archive_all_and_clear (st : Sheets) : Sheets :=
  admin_archive_all_delete (admin_archive_all_copy st)

/-- The fixed fallback salt of `get_salt` (source line 91). -/
def DEFAULT_SALT : String := "set-a-strong-random-salt-in-secrets"

/-- Source `get_salt` (lines 78–92): root secrets entry, then the nested
`gcp_service_account` entry, then the environment variable, then the
fixed fallback (an absent source is modelled as the empty string, which
is how the source's `.get(..., "")` reports absence). -/
def get_salt (secretsSalt gcpSalt envSalt : String) : String :=
  let s1 := secretsSalt
  let s2 := if s1 = "" then gcpSalt else s1
  let s3 := if s2 = "" then envSalt else s2
  if s3 = "" then DEFAULT_SALT else s3

/-- Whether the script surfaces any user-visible warning when `get_salt`
resorts to `DEFAULT_SALT`: it does not — `get_salt` returns the fallback
silently and no `st.warning`/`st.error` call in the script mentions the
salt — so this is constantly `false`. -/
def saltFallbackWarningShown : Bool := false

/-- Dropping while `pySpace` from an all-whitespace list leaves nothing. -/
theorem dropWhile_pySpace_nil {l : List Char} (h : ∀ c ∈ l, pySpace c = true) :
    l.dropWhile pySpace = [] := by
  induction l with
  | nil => rfl
  | cons c cs ih =>
    rw [List.dropWhile_cons, if_pos (h c (by simp))]
    exact ih fun x hx => h x (by simp [hx])

/-- Stripping an all-whitespace string yields the empty string. -/
theorem pyStrip_allws {s : String} (h : ∀ c ∈ s.data, pySpace c = true) :
    pyStrip s = "" := by
  have h1 : pyStripChars s.data = [] := by
    unfold pyStripChars
    rw [dropWhile_pySpace_nil h]
    rfl
  unfold pyStrip
  rw [h1]

/-- Normalizing an all-whitespace string yields the empty key. -/
theorem normalize_text_allws {s : String} (h : ∀ c ∈ s.data, pySpace c = true) :
    normalize_text s = "" := by
  by_cases hs : s = ""
  · simp [normalize_text, hs]
  · unfold normalize_text
    rw [if_neg hs, pyStrip_allws h]
    decide

/-- C8 (corrected): with no salt configured anywhere, `get_salt` does
fall back to the fixed well-known value, but no degraded-security
warning is surfaced anywhere in the script — the fallback is silent,
refuting the claim's "surfaced to the user as a visible warning". -/
theorem C8_counterexample :
    get_salt "" "" "" = DEFAULT_SALT ∧ saltFallbackWarningShown = false :=
  ⟨rfl, rfl⟩

/-- C8 as amended: `get_salt` never crashes and never returns an empty
salt — with no configuration at all it returns the fixed fallback
`DEFAULT_SALT` — but the degraded-security condition is not surfaced:
no warning is shown. -/
theorem C8_amended (secretsSalt gcpSalt envSalt : String) :
    get_salt secretsSalt gcpSalt envSalt ≠ "" ∧
    get_salt "" "" "" = DEFAULT_SALT ∧
    saltFallbackWarningShown = false := by
  refine ⟨?_, rfl, rfl⟩
  simp only [get_salt]
  split_ifs <;> first | assumption | decide

/-- Shift lemma for `matchIdx`: numbering from `i + 1` is numbering from
`i` with every index shifted up by one. -/
theorem matchIdx_succ (p : List String → Bool) :
    ∀ (rs : List (List String)) (i : Nat),
      matchIdx p rs (i + 1) = (matchIdx p rs i).map (· + 1) := by
  intro rs
  induction rs with
  | nil => intro i; rfl
  | cons r rs ih =>
    intro i
    by_cases h : p r = true
    · simp [matchIdx, h, ih (i + 1)]
    · simp [matchIdx, h, ih (i + 1)]

/-- Every index collected by `matchIdx` is at least the starting number. -/
theorem matchIdx_lb (p : List String → Bool) :
    ∀ (rs : List (List String)) (i : Nat), ∀ x ∈ matchIdx p rs i, i ≤ x := by
  intro rs
  induction rs with
  | nil => intro i x hx; simp [matchIdx] at hx
  | cons r rs ih =>
    intro i x hx
    by_cases h : p r = true
    · simp only [matchIdx, if_pos h, List.mem_cons] at hx
      rcases hx with rfl | hx
      · exact le_refl x
      · exact le_trans (Nat.le_succ i) (ih (i + 1) x hx)
    · simp only [matchIdx, if_neg h] at hx
      exact le_trans (Nat.le_succ i) (ih (i + 1) x hx)

/-- The indices collected by `matchIdx` are strictly ascending. -/
theorem matchIdx_sorted (p : List String → Bool) :
    ∀ (rs : List (List String)) (i : Nat), (matchIdx p rs i).Pairwise (· < ·) := by
  intro rs
  induction rs with
  | nil => intro i; simp [matchIdx]
  | cons r rs ih =>
    intro i
    by_cases h : p r = true
    · simp only [matchIdx, if_pos h]
      exact List.pairwise_cons.mpr
        ⟨fun x hx => lt_of_lt_of_le (Nat.lt_succ_self i) (matchIdx_lb p rs (i + 1) x hx),
         ih (i + 1)⟩
    · simp only [matchIdx, if_neg h]
      exact ih (i + 1)

/-- Folding `eraseIdx` over indices shifted by one leaves the head
untouched and acts on the tail. -/
theorem foldl_eraseIdx_cons {α : Type} (x : α) :
    ∀ (ds : List Nat) (t : List α),
      List.foldl (fun acc i => acc.eraseIdx (i + 1)) (x :: t) ds
        = x :: List.foldl (fun acc i => acc.eraseIdx i) t ds := by
  intro ds
  induction ds with
  | nil => intro t; rfl
  | cons d ds ih =>
    intro t
    simp only [List.foldl_cons]
    exact ih (t.eraseIdx d)

/-- Deleting the matching 0-based positions in descending order removes
exactly the matching elements. -/
theorem foldl_erase_matchIdx (p : List String → Bool) :
    ∀ (t : List (List String)),
      List.foldl (fun acc i => acc.eraseIdx i) t (matchIdx p t 0).reverse
        = t.filter (fun r => !(p r)) := by
  intro t
  induction t with
  | nil => rfl
  | cons r rs ih =>
    by_cases h : p r = true
    · have hm : matchIdx p (r :: rs) 0 = 0 :: (matchIdx p rs 0).map (· + 1) := by
        simp [matchIdx, h, show (0 : Nat) + 1 = 1 from rfl, matchIdx_succ p rs 0]
      rw [hm, List.reverse_cons, List.foldl_append, ← List.map_reverse, List.foldl_map,
        foldl_eraseIdx_cons, ih]
      simp [List.filter_cons, h]
    · have hm : matchIdx p (r :: rs) 0 = (matchIdx p rs 0).map (· + 1) := by
        simp [matchIdx, h, show (0 : Nat) + 1 = 1 from rfl, matchIdx_succ p rs 0]
      rw [hm, ← List.map_reverse, List.foldl_map, foldl_eraseIdx_cons, ih]
      simp [List.filter_cons, h]

/-- Main deletion lemma: on sheet values `header :: data`, deleting the
rows collected by `matchIdx _ _ 2` in reverse (descending) order keeps
the header and exactly the non-matching data rows, in order. -/
theorem deleteRowsDesc_matchIdx (p : List String → Bool)
    (hrow : List String) (t : List (List String)) :
    deleteRowsDesc (hrow :: t) (matchIdx p t 2)
      = hrow :: t.filter (fun r => !(p r)) := by
  unfold deleteRowsDesc
  have h2 : matchIdx p t 2 = ((matchIdx p t 0).map (· + 1)).map (· + 1) := by
    rw [show (2 : Nat) = 1 + 1 from rfl, matchIdx_succ p t 1,
      show (1 : Nat) = 0 + 1 from rfl, matchIdx_succ p t 0]
  rw [h2, ← List.map_reverse, List.foldl_map, ← List.map_reverse, List.foldl_map]
  have hstep :
      List.foldl (fun acc i => acc.eraseIdx (i + 1 + 1 - 1)) (hrow :: t) (matchIdx p t 0).reverse
        = hrow :: List.foldl (fun acc i => acc.eraseIdx i) t (matchIdx p t 0).reverse := by
    have : (fun (acc : List (List String)) (i : Nat) => acc.eraseIdx (i + 1 + 1 - 1))
        = fun acc i => acc.eraseIdx (i + 1) := by
      funext acc i
      norm_num
    rw [this, foldl_eraseIdx_cons]
  rw [hstep, foldl_erase_matchIdx]

/-- If no row matches, filtering the non-matching rows keeps everything. -/
theorem filter_eq_self_of_matchIdx_nil (p : List String → Bool) :
    ∀ (t : List (List String)) (i : Nat), matchIdx p t i = [] →
      t.filter (fun r => !(p r)) = t := by
  intro t
  induction t with
  | nil => intro i _; rfl
  | cons r rs ih =>
    intro i hnil
    by_cases h : p r = true
    · simp [matchIdx, h] at hnil
    · simp only [matchIdx, if_neg h] at hnil
      simp [List.filter_cons, h, ih (i + 1) hnil]

/-- Live `Locks` sheet header written on worksheet creation (source
lines 180–182): privacy-hardened schema with hash columns. -/
def LOCKS_HEADER : List String :=
  ["Timestamp", "Date", "Company", "Contact Name", "Brand", "Locked By", "Notes",
   "EmailHash", "PhoneHash"]

/-- Sample 9-column live data row used in the concrete checks below. -/
def SAMPLE_ROW9 : List String :=
  ["2024-01-01 10:00:00", "2024-01-01", "co", "cn", "Other", "al", "nn", "EH", "PH"]

/-- C5 (confirmed): `admin_clear_today` keeps the header row and exactly
the data rows whose Date cell differs from the given date, in their
original order (so it deletes exactly today's rows, whatever the row
order was), and the deletion sequence it uses is strictly descending in
row index, so earlier deletions never invalidate later indices in the
positional, re-indexing store. -/
theorem C5_clear_today (hrow : List String) (rest : List (List String)) (today : String) :
    admin_clear_today (hrow :: rest) today
      = hrow :: rest.filter (fun r => !(dateIs today r)) ∧
    ((matchIdx (dateIs today) rest 2).reverse).Pairwise (· > ·) := by
  constructor
  · unfold admin_clear_today
    simp only [List.tail_cons]
    by_cases hnil : matchIdx (dateIs today) rest 2 = []
    · rw [if_pos hnil, filter_eq_self_of_matchIdx_nil (dateIs today) rest 2 hnil]
    · rw [if_neg hnil, deleteRowsDesc_matchIdx]
  · rw [List.pairwise_reverse]
    exact matchIdx_sorted (dateIs today) rest 2

/-- C4 (confirmed): both archive operations copy before deleting — the
copy phase never touches the live sheet (so a failure between copy and
delete leaves every selected row, indeed every live row, still present),
it appends the selected rows to the Archive (at worst duplicating them
there), and after the full operation every original live row either is
still live or has its archived copy in the Archive — no row is lost. -/
theorem C4_copy_then_delete (st : Sheets) (today : String) :
    (admin_archive_today_copy st today).live = st.live ∧
    (admin_archive_all_copy st).live = st.live ∧
    (rows_to_archive_today st.live today ≠ [] →
      (admin_archive_today_copy st today).archive
        = some (get_or_create_archive st.archive ++ rows_to_archive_today st.live today)) ∧
    (1 < st.live.length →
      (admin_archive_all_copy st).archive
        = some (get_or_create_archive st.archive ++ rows_to_archive_all st.live)) ∧
    (∀ r ∈ st.live, r ∈ (admin_archive_today_and_clear st today).live ∨
      r.take 7 ∈ get_or_create_archive (admin_archive_today_and_clear st today).archive) ∧
    (∀ r ∈ st.live, r ∈ (admin_archive_all_and_clear st).live ∨
      r.take 7 ∈ get_or_create_archive (admin_archive_all_and_clear st).archive) := by
  obtain ⟨lv, ar⟩ := st
  refine ⟨?_, ?_, ?_, ?_, ?_, ?_⟩
  · unfold admin_archive_today_copy
    split_ifs <;> rfl
  · unfold admin_archive_all_copy
    split_ifs <;> rfl
  · intro h
    unfold admin_archive_today_copy
    rw [if_neg h]
  · intro h
    unfold admin_archive_all_copy
    rw [if_neg (by omega : ¬ (Sheets.mk lv ar).live.length ≤ 1)]
  · intro r hr
    by_cases hsel : rows_to_archive_today lv today = []
    · left
      simp only [admin_archive_today_and_clear, admin_archive_today_delete,
        admin_archive_today_copy, hsel, if_pos]
      exact hr
    · cases lv with
      | nil => exact absurd (by simp [rows_to_archive_today]) hsel
      | cons hh t =>
        have hstate : admin_archive_today_and_clear ⟨hh :: t, ar⟩ today
            = ⟨hh :: t.filter (fun r => !(dateIs today r)),
               some (get_or_create_archive ar ++ rows_to_archive_today (hh :: t) today)⟩ := by
          simp only [admin_archive_today_and_clear, admin_archive_today_copy, if_neg hsel]
          simp only [admin_archive_today_delete]
          rw [if_neg hsel]
          simp only [List.tail_cons]
          rw [deleteRowsDesc_matchIdx]
        rw [hstate]
        rcases List.mem_cons.mp hr with rfl | hrt
        · left; exact List.mem_cons_self _ _
        · by_cases hd : dateIs today r = true
          · right
            simp only [get_or_create_archive]
            refine List.mem_append.mpr (Or.inr ?_)
            unfold rows_to_archive_today
            simp only [List.tail_cons]
            exact List.mem_map.mpr ⟨r, List.mem_filter.mpr ⟨hrt, hd⟩, rfl⟩
          · left
            exact List.mem_cons.mpr (Or.inr (List.mem_filter.mpr ⟨hrt, by simp [hd]⟩))
  · intro r hr
    by_cases hlen : lv.length ≤ 1
    · left
      simp only [admin_archive_all_and_clear, admin_archive_all_delete,
        admin_archive_all_copy, hlen, if_pos]
      exact hr
    · cases lv with
      | nil => simp at hlen
      | cons hh t =>
        have hstate : admin_archive_all_and_clear ⟨hh :: t, ar⟩
            = ⟨[hh], some (get_or_create_archive ar ++ rows_to_archive_all (hh :: t))⟩ := by
          simp only [admin_archive_all_and_clear, admin_archive_all_copy, if_neg hlen]
          simp only [admin_archive_all_delete]
          rw [if_neg hlen]
          rfl
        rw [hstate]
        rcases List.mem_cons.mp hr with rfl | hrt
        · left; exact List.mem_cons_self _ _
        · right
          simp only [get_or_create_archive]
          refine List.mem_append.mpr (Or.inr ?_)
          unfold rows_to_archive_all
          simp only [List.tail_cons]
          exact List.mem_map.mpr ⟨r, hrt, rfl⟩

/-- Concrete instance of the copy-phase guarantee of `C4_copy_then_delete`:
on a sheet with one row dated today and no Archive yet, the copy phase
appends exactly that (truncated) row after the lazily created header. -/
theorem C4_witness :
    (admin_archive_today_copy ⟨[LOCKS_HEADER, SAMPLE_ROW9], none⟩ "2024-01-01").archive
      = some (get_or_create_archive (none : Option (List (List String))) ++
          rows_to_archive_today [LOCKS_HEADER, SAMPLE_ROW9] "2024-01-01") :=
  (C4_copy_then_delete ⟨[LOCKS_HEADER, SAMPLE_ROW9], none⟩ "2024-01-01").2.2.1 (by decide)

/-- C7 (corrected): the claim fails on the code — the Archive worksheet
is created with a 7-column header that lacks the `EmailHash`/`PhoneHash`
columns of the live schema, and the archived copy of a 9-field live row
is its truncation to the first 7 fields, not a field-for-field equal
row: the live row itself never reaches the Archive. -/
theorem C7_counterexample :
    (admin_archive_today_copy ⟨[LOCKS_HEADER, SAMPLE_ROW9], none⟩ "2024-01-01").archive
      = some [ARCHIVE_HEADER, SAMPLE_ROW9.take 7]
    ∧ SAMPLE_ROW9.take 7 ≠ SAMPLE_ROW9
    ∧ SAMPLE_ROW9 ∉ [ARCHIVE_HEADER, SAMPLE_ROW9.take 7]
    ∧ ARCHIVE_HEADER ≠ LOCKS_HEADER := by decide

/-- C7 as amended: every row written to the Archive by either archive
operation carries the 7-column PII-stripped schema `Timestamp, Date,
Company, Contact Name, Brand, Locked By, Notes` — the first seven
columns of the live schema, without the hash columns — and equals the
first seven fields of the live row it was copied from; the Archive is
lazily created with exactly that 7-column header. -/
theorem C7_amended (st : Sheets) (today : String) :
    ARCHIVE_HEADER = LOCKS_HEADER.take 7 ∧
    get_or_create_archive none = [ARCHIVE_HEADER] ∧
    (∀ r ∈ rows_to_archive_today st.live today,
      ∃ src ∈ st.live.tail, dateIs today src = true ∧ r = src.take 7) ∧
    (∀ r ∈ rows_to_archive_all st.live,
      ∃ src ∈ st.live.tail, r = src.take 7) := by
  refine ⟨by decide, rfl, ?_, ?_⟩
  · intro r hr
    unfold rows_to_archive_today at hr
    rcases List.mem_map.mp hr with ⟨src, hsrc, rfl⟩
    rcases List.mem_filter.mp hsrc with ⟨hmem, hd⟩
    exact ⟨src, hmem, hd, rfl⟩
  · intro r hr
    rcases List.mem_map.mp hr with ⟨src, hsrc, rfl⟩
    exact ⟨src, hsrc, rfl⟩

/-- Concrete instance of `C7_amended`: the archived copy of the sample
row comes from a live row dated today and equals its first 7 fields. -/
theorem C7_witness :
    ∃ src ∈ ([LOCKS_HEADER, SAMPLE_ROW9] : List (List String)).tail,
      dateIs "2024-01-01" src = true ∧ SAMPLE_ROW9.take 7 = src.take 7 :=
  (C7_amended ⟨[LOCKS_HEADER, SAMPLE_ROW9], none⟩ "2024-01-01").2.2.1
    (SAMPLE_ROW9.take 7) (by decide)

/-- Every record inside any hit group has a non-empty email hash,
phone hash or normalized company key: each signal only matches the
candidate's non-empty key, and the fuzzy loop skips empty company
keys. -/
theorem mem_hitsOf_nonempty_key (hasFuzz : Bool) (df : List Rec) (cn eh ph : String) :
    ∀ g ∈ hitsOf hasFuzz df cn eh ph, ∀ r ∈ g.2,
      r.emailHash ≠ "" ∨ r.phoneHash ≠ "" ∨ compN r ≠ "" := by
  intro g hg r hr
  unfold hitsOf at hg
  dsimp only at hg
  rcases List.mem_append.mp hg with hg12 | hg3
  · rcases List.mem_append.mp hg12 with hg1 | hg2
    · split_ifs at hg1 with h1 h2
      · rcases List.mem_singleton.mp hg1 with rfl
        left
        have hf := (List.mem_filter.mp hr).2
        rw [beq_iff_eq] at hf
        rw [hf]
        exact h1
      · simp at hg1
      · simp at hg1
    · split_ifs at hg2 with h1 h2
      · rcases List.mem_singleton.mp hg2 with rfl
        right; left
        have hf := (List.mem_filter.mp hr).2
        rw [beq_iff_eq] at hf
        rw [hf]
        exact h1
      · simp at hg2
      · simp at hg2
  · split_ifs at hg3 with h1 h2 h3
    · rcases List.mem_singleton.mp hg3 with rfl
      right; right
      have hf := (List.mem_filter.mp hr).2
      have hmv : compN r ∈ fuzzyMatchedVals df cn := of_decide_eq_true hf
      unfold fuzzyMatchedVals at hmv
      have hp := (List.mem_filter.mp hmv).2
      rw [Bool.and_eq_true] at hp
      rcases hp with ⟨hne, _⟩
      rw [Bool.not_eq_eq_eq_not] at hne
      exact fun hcontra => by simp [hcontra] at hne
    · simp at hg3
    · simp at hg3
    · simp at hg3

/-- First component of `find_duplicates`: empty table gives no groups,
otherwise exactly the groups `hitsOf` collects. -/
theorem find_duplicates_fst (hasFuzz : Bool) (df : List Rec) (cn eh ph : String) :
    (find_duplicates hasFuzz df cn eh ph).1
      = if df = [] then [] else hitsOf hasFuzz df cn eh ph := by
  unfold find_duplicates
  by_cases hdf : df = []
  · simp [hdf]
  · simp only [if_neg hdf]
    split_ifs with h <;> rfl

/-- Positional decomposition of the `Dup Today?` flags. -/
theorem dupFlags_append (prior xs ys : List Rec) :
    dupFlags prior (xs ++ ys) = dupFlags prior xs ++ dupFlags (prior ++ xs) ys := by
  induction xs generalizing prior with
  | nil => simp [dupFlags]
  | cons x xs ih =>
    simp only [List.cons_append, dupFlags, List.append_eq, ih, List.append_assoc,
      List.singleton_append, List.nil_append]

/-- Same-day record with empty email hash, phone-only (first of two). -/
def RECA : Rec :=
  ⟨0, 0, "2024-01-01", "alpha", "ca", "Other", "ua", "na", "", "p1"⟩

/-- Same-day record with empty email hash, phone-only (second of two):
different phone hash and company, so the only key it shares with `RECA`
is the equal empty email hash. -/
def RECB : Rec :=
  ⟨1, 1, "2024-01-01", "beta", "cb", "Other", "ub", "nb", "", "p2"⟩

/-- Record with a non-empty email hash, used to instantiate the hit-group
lemma concretely. -/
def RECC : Rec :=
  ⟨0, 0, "2024-01-01", "gamma", "cc", "Other", "uc", "nc", "h", ""⟩

/-- C1 (corrected): the today-view `Dup Today?` flag IS set on a record
solely because an earlier same-day record shares an equal EMPTY key:
`RECA` and `RECB` agree only on their empty email hashes (phone hashes
and companies differ), yet the second record is flagged. -/
theorem C1_counterexample :
    dupFlags [] [RECA, RECB] = [false, true] ∧
    RECA.emailHash = "" ∧ RECB.emailHash = "" ∧
    RECA.phoneHash ≠ RECB.phoneHash ∧ compN RECA ≠ compN RECB ∧
    RECA.date = RECB.date := by decide

/-- C1 as amended: the Matcher part of the claim holds — a candidate
whose three keys are all empty gets no hit groups and an empty combined
view against any table, and a record whose three stored keys are all
empty is never a member of any hit group (so two all-empty existing
records are never matched against each other by the Matcher) — but the
today-view `Dup Today?` flag is simply "an earlier row of the (filtered)
frame has an equal email hash, phone hash or normalized company key",
with equality of empty keys counting, so it can fire on shared empty
keys. -/
theorem C1_empty_keys :
    (∀ hasFuzz df, find_duplicates hasFuzz df "" "" "" = ([], [])) ∧
    (∀ hasFuzz df cn eh ph, ∀ g ∈ (find_duplicates hasFuzz df cn eh ph).1, ∀ r ∈ g.2,
        r.emailHash ≠ "" ∨ r.phoneHash ≠ "" ∨ compN r ≠ "") ∧
    (∀ pre rr post, dupFlags [] (pre ++ rr :: post)
        = dupFlags [] pre ++ (pre.any fun q => sharesKeyB q rr) :: dupFlags (pre ++ [rr]) post) ∧
    (∀ (pre : List Rec) (rr : Rec),
        (pre.any fun q => sharesKeyB q rr) = true ↔ ∃ q ∈ pre, sharesKeyB q rr = true) := by
  refine ⟨?_, ?_, ?_, ?_⟩
  · intro hasFuzz df
    by_cases hdf : df = []
    · simp [find_duplicates, hdf]
    · simp [find_duplicates, hitsOf, hdf]
  · intro hasFuzz df cn eh ph g hg r hr
    rw [find_duplicates_fst] at hg
    by_cases hdf : df = []
    · rw [if_pos hdf] at hg
      simp at hg
    · rw [if_neg hdf] at hg
      exact mem_hitsOf_nonempty_key hasFuzz df cn eh ph g hg r hr
  · intro pre rr post
    rw [dupFlags_append [] pre (rr :: post)]
    simp [dupFlags]
  · intro pre rr
    exact List.any_eq_true

/-- Concrete instance of `C1_empty_keys`: the member of a concrete exact
email hit group has a non-empty key. -/
theorem C1_witness :
    RECC.emailHash ≠ "" ∨ RECC.phoneHash ≠ "" ∨ compN RECC ≠ "" :=
  C1_empty_keys.2.1 false [RECC] "" "h" ""
    ("Exact email (hashed)", [RECC]) (by decide) RECC (by decide)

/-- Inserting into the timestamp-descending order is a permutation. -/
theorem insertTsDesc_perm (r : Rec) (l : List Rec) : List.Perm (insertTsDesc r l) (r :: l) := by
  induction l with
  | nil => exact List.Perm.refl _
  | cons x xs ih =>
    unfold insertTsDesc
    by_cases h : x.ts < r.ts
    · rw [if_pos h]
    · rw [if_neg h]
      exact List.Perm.trans (List.Perm.cons x ih) (List.Perm.swap r x xs)

/-- The timestamp sort is a permutation of its input. -/
theorem sortTsDesc_perm (l : List Rec) : List.Perm (sortTsDesc l) l := by
  induction l with
  | nil => exact List.Perm.refl _
  | cons x xs ih =>
    exact List.Perm.trans (insertTsDesc_perm x (sortTsDesc xs)) (List.Perm.cons x ih)

/-- Membership through `insertTsDesc`. -/
theorem mem_insertTsDesc {r x : Rec} {l : List Rec} :
    x ∈ insertTsDesc r l ↔ x = r ∨ x ∈ l := by
  rw [(insertTsDesc_perm r l).mem_iff]
  exact List.mem_cons

/-- Inserting preserves the nonincreasing-timestamp invariant. -/
theorem insertTsDesc_pairwise {r : Rec} {l : List Rec}
    (h : l.Pairwise (fun a b => b.ts ≤ a.ts)) :
    (insertTsDesc r l).Pairwise (fun a b => b.ts ≤ a.ts) := by
  induction l with
  | nil => simp [insertTsDesc]
  | cons x xs ih =>
    rcases List.pairwise_cons.mp h with ⟨hx, hxs⟩
    unfold insertTsDesc
    by_cases hlt : x.ts < r.ts
    · rw [if_pos hlt]
      refine List.pairwise_cons.mpr ⟨?_, h⟩
      intro y hy
      rcases List.mem_cons.mp hy with rfl | hy'
      · exact le_of_lt hlt
      · exact le_trans (hx y hy') (le_of_lt hlt)
    · rw [if_neg hlt]
      refine List.pairwise_cons.mpr ⟨?_, ih hxs⟩
      intro y hy
      rcases mem_insertTsDesc.mp hy with rfl | hy'
      · exact le_of_not_lt hlt
      · exact hx y hy'

/-- The combined view's sort really is nonincreasing in timestamp. -/
theorem sortTsDesc_sorted (l : List Rec) :
    (sortTsDesc l).Pairwise (fun a b => b.ts ≤ a.ts) := by
  induction l with
  | nil => simp [sortTsDesc]
  | cons x xs ih => exact insertTsDesc_pairwise ih

/-- `drop_duplicates` only keeps rows of its input. -/
theorem mem_dedupByVals :
    ∀ (l : List Rec) (seen) (r : Rec), r ∈ dedupByVals l seen → r ∈ l := by
  intro l
  induction l with
  | nil => intro seen r h; simp [dedupByVals] at h
  | cons x xs ih =>
    intro seen r h
    unfold dedupByVals at h
    by_cases hs : recVals x ∈ seen
    · rw [if_pos hs] at h
      exact List.mem_cons.mpr (Or.inr (ih _ r h))
    · rw [if_neg hs] at h
      rcases List.mem_cons.mp h with rfl | h'
      · exact List.mem_cons_self _ _
      · exact List.mem_cons.mpr (Or.inr (ih _ r h'))

/-- Every input row is value-represented in the output of
`drop_duplicates` (or its value tuple was already seen). -/
theorem dedupByVals_covers :
    ∀ (l : List Rec) (seen) (r : Rec), r ∈ l →
      recVals r ∈ seen ∨ ∃ q ∈ dedupByVals l seen, recVals q = recVals r := by
  intro l
  induction l with
  | nil => intro seen r h; simp at h
  | cons x xs ih =>
    intro seen r h
    unfold dedupByVals
    by_cases hs : recVals x ∈ seen
    · rw [if_pos hs]
      rcases List.mem_cons.mp h with rfl | h'
      · left; exact hs
      · exact ih seen r h'
    · rw [if_neg hs]
      rcases List.mem_cons.mp h with rfl | h'
      · right; exact ⟨_, List.mem_cons_self _ _, rfl⟩
      · rcases ih (recVals x :: seen) r h' with hseen | ⟨q, hq, hqv⟩
        · rcases List.mem_cons.mp hseen with heq | hseen'
          · right; exact ⟨_, List.mem_cons_self _ _, heq.symm⟩
          · left; exact hseen'
        · right; exact ⟨q, List.mem_cons.mpr (Or.inr hq), hqv⟩

/-- `drop_duplicates` leaves no two rows with equal value tuples, and
none whose value tuple was already seen. -/
theorem dedupByVals_nodup :
    ∀ (l : List Rec) (seen),
      (dedupByVals l seen).Pairwise (fun a b => recVals a ≠ recVals b) ∧
      (∀ q ∈ dedupByVals l seen, recVals q ∉ seen) := by
  intro l
  induction l with
  | nil =>
    intro seen
    constructor
    · simp [dedupByVals]
    · intro q hq; simp [dedupByVals] at hq
  | cons x xs ih =>
    intro seen
    unfold dedupByVals
    by_cases hs : recVals x ∈ seen
    · rw [if_pos hs]; exact ih seen
    · rw [if_neg hs]
      rcases ih (recVals x :: seen) with ⟨hpw, hinv⟩
      constructor
      · refine List.pairwise_cons.mpr ⟨?_, hpw⟩
        intro q hq heq
        exact hinv q hq (heq ▸ List.mem_cons_self _ _)
      · intro q hq
        rcases List.mem_cons.mp hq with rfl | hq'
        · exact hs
        · intro hmem; exact hinv q hq' (List.mem_cons.mpr (Or.inr hmem))

/-- Second component of `find_duplicates` when there are hits: the
sorted, value-deduplicated concatenation of the groups. -/
theorem find_duplicates_snd (hasFuzz : Bool) (df : List Rec) (cn eh ph : String)
    (hdf : df ≠ []) (hh : hitsOf hasFuzz df cn eh ph ≠ []) :
    (find_duplicates hasFuzz df cn eh ph).2
      = sortTsDesc (dedupByVals (((hitsOf hasFuzz df cn eh ph).map Prod.snd).flatten) []) := by
  unfold find_duplicates
  rw [if_neg hdf]
  dsimp only
  rw [if_neg hh]

/-- Two distinct records (same stored values, different row identity)
used for the combined-view counterexample. -/
def RDUP0 : Rec := ⟨0, 5, "2024-01-01", "co", "cn", "Other", "u", "n", "h", ""⟩

/-- Same stored values as `RDUP0` but a different record identity. -/
def RDUP1 : Rec := ⟨1, 5, "2024-01-01", "co", "cn", "Other", "u", "n", "h", ""⟩

/-- C9 (corrected): two DISTINCT records whose stored values coincide
both belong to the exact-email hit group, yet the combined view keeps
only one of them — pandas `drop_duplicates()` deduplicates by row
values, not by record identity, refuting "two distinct records are both
kept even if all their field values coincide". -/
theorem C9_counterexample :
    RDUP0 ≠ RDUP1 ∧ recVals RDUP0 = recVals RDUP1 ∧
    (find_duplicates false [RDUP0, RDUP1] "" "h" "").1
      = [("Exact email (hashed)", [RDUP0, RDUP1])] ∧
    (find_duplicates false [RDUP0, RDUP1] "" "h" "").2 = [RDUP0] :=
  ⟨by decide, by decide, by decide, by decide⟩

/-- C9 as amended: with zero hit groups the combined view is empty; it
is always sorted by timestamp descending (most recent first); every
combined record comes from some hit group; every record of every hit
group is represented in the combined view by a record with equal stored
values (deduplication is by row VALUES — a distinct record with
identical values is collapsed, not kept); and no two combined records
share their values. -/
theorem C9_combined_view (hasFuzz : Bool) (df : List Rec) (cn eh ph : String) :
    ((find_duplicates hasFuzz df cn eh ph).1 = [] →
      (find_duplicates hasFuzz df cn eh ph).2 = []) ∧
    ((find_duplicates hasFuzz df cn eh ph).2).Pairwise (fun a b => b.ts ≤ a.ts) ∧
    (∀ r ∈ (find_duplicates hasFuzz df cn eh ph).2,
      ∃ g ∈ (find_duplicates hasFuzz df cn eh ph).1, r ∈ g.2) ∧
    (∀ g ∈ (find_duplicates hasFuzz df cn eh ph).1, ∀ r ∈ g.2,
      ∃ q ∈ (find_duplicates hasFuzz df cn eh ph).2, recVals q = recVals r) ∧
    ((find_duplicates hasFuzz df cn eh ph).2).Pairwise
      (fun a b => recVals a ≠ recVals b) := by
  by_cases hdf : df = []
  · simp [find_duplicates, hdf]
  · by_cases hhit : hitsOf hasFuzz df cn eh ph = []
    · have h2 : find_duplicates hasFuzz df cn eh ph = (hitsOf hasFuzz df cn eh ph, []) := by
        unfold find_duplicates
        rw [if_neg hdf]
        dsimp only
        rw [if_pos hhit]
      rw [h2]
      simp [hhit]
    · have h1 : (find_duplicates hasFuzz df cn eh ph).1 = hitsOf hasFuzz df cn eh ph := by
        rw [find_duplicates_fst, if_neg hdf]
      have h2 := find_duplicates_snd hasFuzz df cn eh ph hdf hhit
      rw [h1, h2]
      refine ⟨fun hc => absurd hc hhit, sortTsDesc_sorted _, ?_, ?_, ?_⟩
      · intro r hr
        have hr' : r ∈ dedupByVals (((hitsOf hasFuzz df cn eh ph).map Prod.snd).flatten) [] :=
          (sortTsDesc_perm _).mem_iff.mp hr
        have hfl := mem_dedupByVals _ [] r hr'
        rcases List.mem_flatten.mp hfl with ⟨l, hl, hrl⟩
        rcases List.mem_map.mp hl with ⟨g, hg, rfl⟩
        exact ⟨g, hg, hrl⟩
      · intro g hg r hr
        have hfl : r ∈ ((hitsOf hasFuzz df cn eh ph).map Prod.snd).flatten :=
          List.mem_flatten.mpr ⟨g.2, List.mem_map.mpr ⟨g, hg, rfl⟩, hr⟩
        rcases dedupByVals_covers _ [] r hfl with hseen | ⟨q, hq, hqv⟩
        · simp at hseen
        · exact ⟨q, (sortTsDesc_perm _).mem_iff.mpr hq, hqv⟩
      · exact ((sortTsDesc_perm _).pairwise_iff
          (fun {a b} h e => h e.symm)).mpr (dedupByVals_nodup _ []).1

/-- Concrete instance of `C9_combined_view`: the single combined record
of a concrete run comes from a hit group. -/
theorem C9_witness :
    ∃ g ∈ (find_duplicates false [RECC] "" "h" "").1, RECC ∈ g.2 :=
  (C9_combined_view false [RECC] "" "h" "").2.2.1 RECC (by decide)

/-- Existing record whose email hash collides with the candidate used in
the confirmation-gate runs (salt `"s"`, email `"a"`, identity digest). -/
def RGATE : Rec := ⟨0, 0, "2024-01-01", "zeta", "zc", "Other", "uz", "nz", "sa", ""⟩

/-- C2 (corrected): changing a field that does NOT enter the signature
does not re-block.  First submission of a duplicate-triggering candidate
is blocked and arms the gate; the second submission with the notes field
changed — a changed field — still proceeds to append, because the
signature (email hash | phone hash | company key) ignores notes. -/
theorem C2_counterexample :
    (submit (fun s => s) false [RGATE] "T" "D" "s" "al" "Other" "c" "n" "a" "" "n1"
        ⟨none, false⟩).1
      = SubmitOutcome.blocked [("Exact email (hashed)", [RGATE])] [RGATE] ∧
    (submit (fun s => s) false [RGATE] "T" "D" "s" "al" "Other" "c" "n" "a" "" "n2"
        (submit (fun s => s) false [RGATE] "T" "D" "s" "al" "Other" "c" "n" "a" "" "n1"
          ⟨none, false⟩).2).1
      = SubmitOutcome.appended ["T", "D", "c", "n", "Other", "al", "n2", "sa", ""] ∧
    ("n1" : String) ≠ "n2" :=
  ⟨by decide, by decide, by decide⟩

/-- C2 as amended: on a duplicate-triggering, validation-passing
submission, if the session is not armed with exactly this submission's
signature (in particular after any change to email, phone or company,
which are the fields the signature depends on), the submission is
blocked, nothing is appended, and the session becomes armed with the
signature; if the session is armed with this very signature, the
submission appends the new row and clears the armed state.  Fields
outside the signature (contact name, notes) do not affect it. -/
theorem C2_confirmation_gate (digest : String → String) (hasFuzz : Bool) (df : List Rec)
    (tsIso dateStr salt lockedBy brand company contactName email phone notes : String)
    (st : GateState)
    (hlb : lockedBy ≠ "") (hbr : brand ≠ "") (hco : company ≠ "") (hcn : contactName ≠ "")
    (hep : ¬(email = "" ∧ phone = ""))
    (hhits : (find_duplicates hasFuzz df (normalize_text company)
        (emailHashOf digest salt email) (phoneHashOf digest salt phone)).1 ≠ []) :
    (st.confirmSig ≠ some (sigOf digest salt company email phone) ∨ st.confirmReady = false →
      submit digest hasFuzz df tsIso dateStr salt lockedBy brand company contactName email phone notes st
        = (SubmitOutcome.blocked
            (find_duplicates hasFuzz df (normalize_text company)
              (emailHashOf digest salt email) (phoneHashOf digest salt phone)).1
            (find_duplicates hasFuzz df (normalize_text company)
              (emailHashOf digest salt email) (phoneHashOf digest salt phone)).2,
           ⟨some (sigOf digest salt company email phone), true⟩) ∧
      appendedRows (submit digest hasFuzz df tsIso dateStr salt lockedBy brand company
        contactName email phone notes st).1 = []) ∧
    (st = ⟨some (sigOf digest salt company email phone), true⟩ →
      submit digest hasFuzz df tsIso dateStr salt lockedBy brand company contactName email phone notes st
        = (SubmitOutcome.appended
            (new_row tsIso dateStr company contactName brand lockedBy notes
              (emailHashOf digest salt email) (phoneHashOf digest salt phone)),
           ⟨none, false⟩)) := by
  have hv1 : ¬(lockedBy = "" ∨ brand = "") := not_or.mpr ⟨hlb, hbr⟩
  have hv2 : ¬(company = "" ∨ contactName = "") := not_or.mpr ⟨hco, hcn⟩
  constructor
  · intro harm
    have hsub : submit digest hasFuzz df tsIso dateStr salt lockedBy brand company
        contactName email phone notes st
        = (SubmitOutcome.blocked
            (find_duplicates hasFuzz df (normalize_text company)
              (emailHashOf digest salt email) (phoneHashOf digest salt phone)).1
            (find_duplicates hasFuzz df (normalize_text company)
              (emailHashOf digest salt email) (phoneHashOf digest salt phone)).2,
           ⟨some (sigOf digest salt company email phone), true⟩) := by
      unfold submit
      rw [if_neg hv1, if_neg hv2, if_neg hep]
      dsimp only
      rw [if_pos ⟨hhits, harm⟩]
    exact ⟨hsub, by rw [hsub]; rfl⟩
  · intro hst
    subst hst
    unfold submit
    rw [if_neg hv1, if_neg hv2, if_neg hep]
    dsimp only
    rw [if_neg (fun hc => hc.2.elim (fun h => h rfl) (fun h => by simp at h))]

/-- Concrete instance of `C2_confirmation_gate`: the first submission of
the duplicate-triggering candidate from the Clear state is blocked and
arms the gate with the signature. -/
theorem C2_witness :
    submit (fun s => s) false [RGATE] "T" "D" "s" "al" "Other" "c" "n" "a" "" "n1" ⟨none, false⟩
      = (SubmitOutcome.blocked
          (find_duplicates false [RGATE] (normalize_text "c")
            (emailHashOf (fun s => s) "s" "a") (phoneHashOf (fun s => s) "s" "")).1
          (find_duplicates false [RGATE] (normalize_text "c")
            (emailHashOf (fun s => s) "s" "a") (phoneHashOf (fun s => s) "s" "")).2,
         ⟨some (sigOf (fun s => s) "s" "c" "a" ""), true⟩) :=
  ((C2_confirmation_gate (fun s => s) false [RGATE] "T" "D" "s" "al" "Other" "c" "n" "a" "" "n1"
      ⟨none, false⟩ (by decide) (by decide) (by decide) (by decide) (by decide) (by decide)).1
    (by decide)).1

/-- C3 (confirmed): the appended row is exactly the server timestamp and
date, the stripped company / contact / brand / locked-by / notes fields
and the two salted hashes; the submit pipeline depends on the raw email
(resp. phone) only through its emptiness and its salted hash — equal
hashes give identical behaviour and an identical persisted row — and
the raw email/phone string is not a member of the appended row unless it
textually coincides with one of those nine values. -/
theorem C3_no_raw_pii (digest : String → String) (hasFuzz : Bool) (df : List Rec)
    (tsIso dateStr salt lockedBy brand company contactName email phone notes email2 phone2 : String)
    (st : GateState) :
    (∀ row,
      (submit digest hasFuzz df tsIso dateStr salt lockedBy brand company contactName email phone notes st).1
        = SubmitOutcome.appended row →
      row = [tsIso, dateStr, pyStrip company, pyStrip contactName, brand, pyStrip lockedBy,
             pyStrip notes, emailHashOf digest salt email, phoneHashOf digest salt phone]) ∧
    (email ≠ "" → email2 ≠ "" →
      sha256_hex digest (salt ++ normalize_text email)
        = sha256_hex digest (salt ++ normalize_text email2) →
      submit digest hasFuzz df tsIso dateStr salt lockedBy brand company contactName email phone notes st
        = submit digest hasFuzz df tsIso dateStr salt lockedBy brand company contactName email2 phone notes st) ∧
    (phone ≠ "" → phone2 ≠ "" →
      sha256_hex digest (salt ++ normalize_phone phone)
        = sha256_hex digest (salt ++ normalize_phone phone2) →
      submit digest hasFuzz df tsIso dateStr salt lockedBy brand company contactName email phone notes st
        = submit digest hasFuzz df tsIso dateStr salt lockedBy brand company contactName email phone2 notes st) ∧
    (email ∉ ([tsIso, dateStr, pyStrip company, pyStrip contactName, brand, pyStrip lockedBy,
        pyStrip notes] : List String) →
      email ≠ emailHashOf digest salt email → email ≠ phoneHashOf digest salt phone →
      ∀ row,
        (submit digest hasFuzz df tsIso dateStr salt lockedBy brand company contactName email phone notes st).1
          = SubmitOutcome.appended row →
        email ∉ row) ∧
    (phone ∉ ([tsIso, dateStr, pyStrip company, pyStrip contactName, brand, pyStrip lockedBy,
        pyStrip notes] : List String) →
      phone ≠ emailHashOf digest salt email → phone ≠ phoneHashOf digest salt phone →
      ∀ row,
        (submit digest hasFuzz df tsIso dateStr salt lockedBy brand company contactName email phone notes st).1
          = SubmitOutcome.appended row →
        phone ∉ row) := by
  have hstruct : ∀ row,
      (submit digest hasFuzz df tsIso dateStr salt lockedBy brand company contactName email phone notes st).1
        = SubmitOutcome.appended row →
      row = [tsIso, dateStr, pyStrip company, pyStrip contactName, brand, pyStrip lockedBy,
             pyStrip notes, emailHashOf digest salt email, phoneHashOf digest salt phone] := by
    intro row h
    unfold submit at h
    split at h
    · simp at h
    · split at h
      · simp at h
      · split at h
        · simp at h
        · dsimp only at h
          split at h
          · simp at h
          · simp at h
            rw [← h]
            rfl
  refine ⟨hstruct, ?_, ?_, ?_, ?_⟩
  · intro he1 he2 hcong
    by_cases h1 : lockedBy = "" ∨ brand = ""
    · simp [submit, h1]
    · by_cases h2 : company = "" ∨ contactName = ""
      · simp [submit, h1, h2]
      · have he : emailHashOf digest salt email = emailHashOf digest salt email2 := by
          unfold emailHashOf
          rw [if_neg he1, if_neg he2]
          exact hcong
        have hsig : sigOf digest salt company email phone = sigOf digest salt company email2 phone := by
          unfold sigOf
          rw [he]
        have hne1 : ¬(email = "" ∧ phone = "") := fun hc => he1 hc.1
        have hne2 : ¬(email2 = "" ∧ phone = "") := fun hc => he2 hc.1
        simp only [submit, if_neg h1, if_neg h2, if_neg hne1, if_neg hne2, he, hsig]
  · intro hp1 hp2 hcong
    by_cases h1 : lockedBy = "" ∨ brand = ""
    · simp [submit, h1]
    · by_cases h2 : company = "" ∨ contactName = ""
      · simp [submit, h1, h2]
      · have hp : phoneHashOf digest salt phone = phoneHashOf digest salt phone2 := by
          unfold phoneHashOf
          rw [if_neg hp1, if_neg hp2]
          exact hcong
        have hsig : sigOf digest salt company email phone = sigOf digest salt company email phone2 := by
          unfold sigOf
          rw [hp]
        have hne1 : ¬(email = "" ∧ phone = "") := fun hc => hp1 hc.2
        have hne2 : ¬(email = "" ∧ phone2 = "") := fun hc => hp2 hc.2
        simp only [submit, if_neg h1, if_neg h2, if_neg hne1, if_neg hne2, hp, hsig]
  · intro hmem hne1 hne2 row hrow
    rw [hstruct row hrow]
    intro hc
    simp only [List.mem_cons] at hc
    rcases hc with h|h|h|h|h|h|h|h|h|hc
    · exact hmem (by simp [h])
    · exact hmem (by simp [h])
    · exact hmem (by simp [h])
    · exact hmem (by simp [h])
    · exact hmem (by simp [h])
    · exact hmem (by simp [h])
    · exact hmem (by simp [h])
    · exact hne1 h
    · exact hne2 h
    · simp at hc
  · intro hmem hne1 hne2 row hrow
    rw [hstruct row hrow]
    intro hc
    simp only [List.mem_cons] at hc
    rcases hc with h|h|h|h|h|h|h|h|h|hc
    · exact hmem (by simp [h])
    · exact hmem (by simp [h])
    · exact hmem (by simp [h])
    · exact hmem (by simp [h])
    · exact hmem (by simp [h])
    · exact hmem (by simp [h])
    · exact hmem (by simp [h])
    · exact hne1 h
    · exact hne2 h
    · simp at hc

/-- Concrete instance of `C3_no_raw_pii`: the raw email `"a"` appears in
no field of the concrete appended row (whose email field is the salted
digest `"#sa"`). -/
theorem C3_witness :
    ("a" : String) ∉ (["T", "D", "c", "n", "Other", "al", "nn", "#sa", ""] : List String) :=
  (C3_no_raw_pii (fun s => "#" ++ s) false [] "T" "D" "s" "al" "Other" "c" "n" "a" "" "nn"
      "a" "" ⟨none, false⟩).2.2.2.1
    (by decide) (by decide) (by decide)
    ["T", "D", "c", "n", "Other", "al", "nn", "#sa", ""] (by decide)

/-- C10 (confirmed): the mandatory-field validation tests raw string
truthiness, so a whitespace-only Company or Contact Name (non-empty raw
string) passes it; an accepted submission stores `strip(field)` at the
corresponding position, which is the empty string for an all-whitespace
field, and the normalized company key of an all-whitespace company is
empty. -/
theorem C10_whitespace_validation (digest : String → String) (hasFuzz : Bool) (df : List Rec)
    (tsIso dateStr salt lockedBy brand company contactName email phone notes : String)
    (st : GateState)
    (hlb : lockedBy ≠ "") (hbr : brand ≠ "") (hco : company ≠ "") (hcn : contactName ≠ "")
    (hep : ¬(email = "" ∧ phone = "")) :
    ((submit digest hasFuzz df tsIso dateStr salt lockedBy brand company contactName email phone notes st).1
        ≠ SubmitOutcome.profileError ∧
     (submit digest hasFuzz df tsIso dateStr salt lockedBy brand company contactName email phone notes st).1
        ≠ SubmitOutcome.missingRequired ∧
     (submit digest hasFuzz df tsIso dateStr salt lockedBy brand company contactName email phone notes st).1
        ≠ SubmitOutcome.missingContactInfo) ∧
    (∀ row,
      (submit digest hasFuzz df tsIso dateStr salt lockedBy brand company contactName email phone notes st).1
        = SubmitOutcome.appended row →
      row.get? 2 = some (pyStrip company) ∧ row.get? 3 = some (pyStrip contactName)) ∧
    ((∀ c ∈ company.data, pySpace c = true) →
      pyStrip company = "" ∧ normalize_text company = "") ∧
    ((∀ c ∈ contactName.data, pySpace c = true) → pyStrip contactName = "") := by
  have hv1 : ¬(lockedBy = "" ∨ brand = "") := not_or.mpr ⟨hlb, hbr⟩
  have hv2 : ¬(company = "" ∨ contactName = "") := not_or.mpr ⟨hco, hcn⟩
  refine ⟨?_, ?_, ?_, ?_⟩
  · unfold submit
    rw [if_neg hv1, if_neg hv2, if_neg hep]
    dsimp only
    split
    · exact ⟨by simp, by simp, by simp⟩
    · exact ⟨by simp, by simp, by simp⟩
  · intro row h
    unfold submit at h
    rw [if_neg hv1, if_neg hv2, if_neg hep] at h
    dsimp only at h
    split at h
    · simp at h
    · simp at h
      rw [← h]
      exact ⟨rfl, rfl⟩
  · intro hws
    exact ⟨pyStrip_allws hws, normalize_text_allws hws⟩
  · intro hws
    exact pyStrip_allws hws

/-- Concrete instance of `C10_whitespace_validation`: company `" "`
passes validation, the appended row stores the empty string in the
Company cell, and its company key is empty. -/
theorem C10_witness :
    ((["T", "D", "", "x", "Other", "al", "", "#sa", ""] : List String).get? 2
        = some (pyStrip " ") ∧
     (["T", "D", "", "x", "Other", "al", "", "#sa", ""] : List String).get? 3
        = some (pyStrip "x")) ∧
    (pyStrip " " = "" ∧ normalize_text " " = "") :=
  ⟨(C10_whitespace_validation (fun s => "#" ++ s) false [] "T" "D" "s" "al" "Other" " " "x"
      "a" "" "" ⟨none, false⟩ (by decide) (by decide) (by decide) (by decide) (by decide)).2.1
      ["T", "D", "", "x", "Other", "al", "", "#sa", ""] (by decide),
   (C10_whitespace_validation (fun s => "#" ++ s) false [] "T" "D" "s" "al" "Other" " " "x"
      "a" "" "" ⟨none, false⟩ (by decide) (by decide) (by decide) (by decide) (by decide)).2.2.1
      (by decide)⟩

/-- Existing record whose normalized company key is `"acme inc"`. -/
def RFZ : Rec := ⟨0, 0, "2024-01-01", "acme inc", "fc", "Other", "uf", "nf", "", ""⟩

/-- C6 (corrected): the threshold is not admin-tunable — `find_duplicates`
always compares against the fixed constant 82.  Instantiating the
claim's tunable value at t = 75 ∈ [70, 95]: the existing distinct
company key `"acme inc"` scores 80 ≥ 75 against the candidate key
`"acme co"`, so under the claim it must join the fuzzy hit group, yet
the code's qualifying set is empty and the matching pass returns no
groups at all. -/
theorem C6_counterexample :
    (70 : ℚ) ≤ 75 ∧ (75 : ℚ) ≤ 95 ∧
    tokenSetScore "acme co" "acme inc" = 80 ∧
    (75 : ℚ) ≤ tokenSetScore "acme co" "acme inc" ∧
    "acme inc" ∈ uniqFirst ([RFZ].map compN) ∧
    "acme inc" ∉ fuzzyMatchedVals [RFZ] "acme co" ∧
    (find_duplicates true [RFZ] "acme co" "" "").1 = [] := by
  have hsc := tokenSetScore_acme
  have hple : ¬ (FUZZY_THRESHOLD ≤ tokenSetScore "acme co" "acme inc") := by
    rw [hsc]
    norm_num [FUZZY_THRESHOLD]
  have hmv : fuzzyMatchedVals [RFZ] "acme co" = [] := by
    unfold fuzzyMatchedVals
    have hu : uniqFirst ([RFZ].map compN) = ["acme inc"] := by decide
    rw [hu]
    simp [hple]
  have hh : hitsOf true [RFZ] "acme co" "" "" = [] := by
    simp [hitsOf, hmv]
  refine ⟨by norm_num, by norm_num, hsc, by rw [hsc]; norm_num, by decide, ?_, ?_⟩
  · intro hc
    rcases List.mem_filter.mp hc with ⟨_, hp⟩
    rw [Bool.and_eq_true] at hp
    exact hple (of_decide_eq_true hp.2)
  · rw [find_duplicates_fst, if_neg (by decide : ¬ ([RFZ] = []))]
    exact hh

/-- C6 as amended: the fuzzy-company threshold is the fixed constant 82
(not admin-tunable), and a distinct existing normalized company key
belongs to the qualifying set exactly when it is non-empty and its
token-set similarity score against the candidate's company key is at
least that fixed 82. -/
theorem C6_fuzzy_threshold (df : List Rec) (cn comp : String) :
    FUZZY_THRESHOLD = 82 ∧
    (comp ∈ fuzzyMatchedVals df cn ↔
      comp ∈ uniqFirst (df.map compN) ∧ comp ≠ "" ∧
        FUZZY_THRESHOLD ≤ tokenSetScore cn comp) := by
  refine ⟨rfl, ?_⟩
  unfold fuzzyMatchedVals
  rw [List.mem_filter]
  constructor
  · rintro ⟨hmem, hp⟩
    rw [Bool.and_eq_true] at hp
    rcases hp with ⟨h1, h2⟩
    refine ⟨hmem, ?_, of_decide_eq_true h2⟩
    intro hc
    subst hc
    simp at h1
  · rintro ⟨hmem, h1, h2⟩
    refine ⟨hmem, ?_⟩
    rw [Bool.and_eq_true]
    exact ⟨by simp [h1], decide_eq_true h2⟩

/-- Concrete instance of `C6_fuzzy_threshold`: the threshold constant the
qualifying set compares against is 82. -/
theorem C6_witness : FUZZY_THRESHOLD = 82 :=
  (C6_fuzzy_threshold [] "" "").1
